import Mathlib

/-!
Verification of the ABI type/method codec of `algonaut_abi`
(src/algonaut_abi/src/abi_type.rs and src/algonaut_abi/src/interactions.rs).

Rust strings are modelled as lists of characters; Rust `Result` together
with the possibility of a panic (a failing `unwrap`/`expect`/out-of-bounds
index) is modelled by the three-valued type `RRes`.
-/

namespace Algonaut

/-- Rust `&str`/`String`, modelled as a list of characters. -/
abbrev Str := List Char

/-- Modelled from the spec: `AbiError` (declared in `error.rs`, which only
carries a descriptive message for every failure of this crate). -/
inductive AbiError where
  | msg (m : String)
deriving Repr

/-- Outcome of a Rust computation: a normal value, a returned error, or a
panic (failing `unwrap`/`expect`, slice or index out of bounds). -/
inductive RRes (α : Type) where
  | ok (a : α)
  | err (e : AbiError)
  | panicked
deriving Repr

/-- Whether an `RRes` is a returned error. -/
def RRes.isErr {α : Type} : RRes α → Bool
  | .err _ => true
  | _ => false

/-- Whether an `RRes` is a normal value. -/
def RRes.isOk {α : Type} : RRes α → Bool
  | .ok _ => true
  | _ => false

/-! ### The type model (abi_type.rs) -/

/-- Uint is the index (0) for `Uint` type in ABI encoding. -/
def UINT : Nat := 0

/-- Byte is the index (1) for `Byte` type in ABI encoding. -/
def BYTE : Nat := 1

/-- Ufixed is the index (2) for `UFixed` type in ABI encoding. -/
def UFIXED : Nat := 2

/-- Bool is the index (3) for `Bool` type in ABI encoding. -/
def BOOL : Nat := 3

/-- ArrayStatic is the index (4) for static length array type. -/
def ARRAY_STATIC : Nat := 4

/-- Address is the index (5) for `Address` type. -/
def ADDRESS : Nat := 5

/-- ArrayDynamic is the index (6) for dynamic length array type. -/
def ARRAY_DYNAMIC : Nat := 6

/-- String is the index (7) for `String` type. -/
def STRING : Nat := 7

/-- Tuple is the index (8) for tuple type. -/
def TUPLE : Nat := 8

/-- `AbiType`: the struct that stores information about an ABI value's type.
The `u16` fields `bit_size`, `precision` and `static_length` are modelled as
`Option Nat` (their bounds are enforced by the constructor functions). -/
inductive AbiType where
  | mk (abi_type_id : Nat) (child_types : List AbiType)
       (bit_size : Option Nat) (precision : Option Nat)
       (static_length : Option Nat)

/-- Field accessor for `abi_type_id`. -/
def AbiType.abi_type_id : AbiType → Nat
  | .mk i _ _ _ _ => i

/-- Field accessor for `child_types`. -/
def AbiType.child_types : AbiType → List AbiType
  | .mk _ c _ _ _ => c

/-- Field accessor for `bit_size`. -/
def AbiType.bit_size : AbiType → Option Nat
  | .mk _ _ b _ _ => b

/-- Field accessor for `precision`. -/
def AbiType.precision : AbiType → Option Nat
  | .mk _ _ _ p _ => p

/-- Field accessor for `static_length`. -/
def AbiType.static_length : AbiType → Option Nat
  | .mk _ _ _ _ l => l

/-- `make_dynamic_array_type`. -/
def make_dynamic_array_type (arg_type : AbiType) : AbiType :=
  .mk ARRAY_DYNAMIC [arg_type] none none none

/-- `make_static_array_type`. -/
def make_static_array_type (arg_type : AbiType) (array_len : Nat) : AbiType :=
  .mk ARRAY_STATIC [arg_type] none none (some array_len)

/-- `make_uint_type`: bitSize must be in [8, 512] and a multiple of 8.
The argument is an `i32` in the source, hence `Int` here. -/
def make_uint_type (type_size : Int) : RRes AbiType :=
  if type_size % 8 ≠ 0 ∨ type_size < 8 ∨ type_size > 512 then
    .err (.msg "unsupported uint type bitSize")
  else
    .ok (.mk UINT [] (some type_size.toNat) none none)

/-- `make_empty_fields_type`. -/
def make_empty_fields_type (t : Nat) : AbiType :=
  .mk t [] none none none

/-- `make_ufixed_type`: bitSize in [8, 512] and a multiple of 8, precision
in [1, 160].  The arguments are `u32` in the source, hence `Nat` here (the
parser only passes values below 2^32). -/
def make_ufixed_type (type_size type_precision : Nat) : RRes AbiType :=
  if type_size % 8 ≠ 0 ∨ ¬(8 ≤ type_size ∧ type_size ≤ 512) then
    .err (.msg "unsupported ufixed type bitSize")
  else if ¬(1 ≤ type_precision ∧ type_precision ≤ 160) then
    .err (.msg "unsupported ufixed type precision")
  else
    .ok (.mk UFIXED [] (some type_size) (some type_precision) none)

/-- `make_tuple_type` (the private one in abi_type.rs, used by the parser):
rejects element counts of `u16::MAX` (65535) or more. -/
def make_tuple_type (argument_types : List AbiType) : RRes AbiType :=
  if argument_types.length ≥ 65535 then
    .err (.msg "tuple type child type number larger than maximum uint16 error")
  else
    .ok (.mk TUPLE argument_types none none (some argument_types.length))

/-! ### The serializer `AbiType::string` -/

/-- Decimal rendering of a natural number (Rust's `format!` of an integer). -/
def natStr (n : Nat) : Str := Nat.toDigits 10 n

/-- Runs `f` over a list, collecting the results; the first error or panic
aborts (the `?`-propagation inside the source's loops). -/
def collect_results {α β : Type} (f : α → RRes β) : List α → RRes (List β)
  | [] => .ok []
  | a :: rest =>
    match f a with
    | .ok b =>
      match collect_results f rest with
      | .ok bs => .ok (b :: bs)
      | .err e => .err e
      | .panicked => .panicked
    | .err e => .err e
    | .panicked => .panicked

/-- The error returned by `AbiType::string` on a field/tag mismatch. -/
def invalid_state : RRes Str := .err (.msg "Invalid state: not serializable abi type state")

/-- `AbiType::string`, fuel-indexed (the fuel only bounds the recursion
depth; `sizeOf` of the value is always sufficient, see `AbiType.string`).
Each arm mirrors one arm of the source's `match` on
`(abi_type_id, bit_size, precision, static_length)` with its guard on
`child_types`; any other combination falls through to the
"Invalid state" error.  Note that, as in the source, the `UFIXED` arm
concatenates the bit size and the precision with no separator, the `TUPLE`
arm requires `static_length` to be `None`, and there is no `ADDRESS` arm. -/
def string_go : Nat → AbiType → RRes Str
  | 0, _ => .panicked
  | fuel + 1, .mk tid children bs prec slen =>
    if tid = UINT then
      match bs, prec, slen, children with
      | some bit_size, none, none, [] => .ok ("uint".data ++ natStr bit_size)
      | _, _, _, _ => invalid_state
    else if tid = BYTE then
      match bs, prec, slen, children with
      | none, none, none, [] => .ok "byte".data
      | _, _, _, _ => invalid_state
    else if tid = UFIXED then
      match bs, prec, slen, children with
      | some bit_size, some precision, none, [] =>
        .ok ("ufixed".data ++ natStr bit_size ++ natStr precision)
      | _, _, _, _ => invalid_state
    else if tid = BOOL then
      match bs, prec, slen, children with
      | none, none, none, [] => .ok "bool".data
      | _, _, _, _ => invalid_state
    else if tid = ARRAY_STATIC then
      match bs, prec, slen, children with
      | none, none, some static_length, c0 :: _ =>
        match string_go fuel c0 with
        | .ok cs => .ok (cs ++ "[".data ++ natStr static_length ++ "]".data)
        | .err e => .err e
        | .panicked => .panicked
      | _, _, _, _ => invalid_state
    else if tid = ARRAY_DYNAMIC then
      match bs, prec, slen, children with
      | none, none, none, c0 :: _ =>
        match string_go fuel c0 with
        | .ok cs => .ok (cs ++ "[]".data)
        | .err e => .err e
        | .panicked => .panicked
      | _, _, _, _ => invalid_state
    else if tid = STRING then
      match bs, prec, slen, children with
      | none, none, none, [] => .ok "string".data
      | _, _, _, _ => invalid_state
    else if tid = TUPLE then
      match bs, prec, slen with
      | none, none, none =>
        match collect_results (string_go fuel) children with
        | .ok type_strings => .ok ("(".data ++ List.intercalate ",".data type_strings ++ ")".data)
        | .err e => .err e
        | .panicked => .panicked
      | _, _, _ => invalid_state
    else invalid_state

mutual

/-- Size of an `AbiType` value (number of nodes and list cells); strictly
bounds the recursion depth of `string_go`. -/
def AbiType.size : AbiType → Nat
  | .mk _ cs _ _ _ => 1 + AbiType.sizeList cs

/-- Size of a list of `AbiType` values. -/
def AbiType.sizeList : List AbiType → Nat
  | [] => 0
  | t :: ts => 1 + AbiType.size t + AbiType.sizeList ts

end

/-- `AbiType::string`: serializes an ABI type to a string.  `AbiType.size t`
strictly bounds the recursion depth, so the fuel never runs out. -/
def AbiType.string (t : AbiType) : RRes Str := string_go (AbiType.size t) t

/-! ### The tuple content splitter `parse_tuple_content` -/

/-- `Segment`: start and end (both inclusive) of a parenthesized span. -/
structure Segment where
  left : Nat
  right : Nat
deriving Repr

/-- `str.contains(",,")`: scans for two adjacent commas. -/
def contains_consecutive_commas : Str → Bool
  | [] => false
  | [_] => false
  | c1 :: c2 :: rest => (c1 = ',' && c2 = ',') || contains_consecutive_commas (c2 :: rest)

/-- The scan of `parse_tuple_content` that records the outermost
parenthesized segments.  `stack` holds the indices of currently unmatched
`(` (innermost first; the source uses a `Vec` with its top at the end),
`acc` the segments recorded so far, in order of their closing parenthesis. -/
def scan_parens : Str → Nat → List Nat → List Segment → RRes (List Segment)
  | [], _, stack, acc =>
    if stack.isEmpty then .ok acc else .err (.msg "unpaired parentheses")
  | c :: rest, index, stack, acc =>
    if c = '(' then
      scan_parens rest (index + 1) (index :: stack) acc
    else if c = ')' then
      match stack with
      | [] => .err (.msg "unpaired parentheses")
      | left_paren_index :: stack' =>
        if stack'.isEmpty then
          scan_parens rest (index + 1) stack' (acc ++ [⟨left_paren_index, index⟩])
        else
          scan_parens rest (index + 1) stack' acc
    else
      scan_parens rest (index + 1) stack acc

/-- Removal of the recorded parenthesized segments from the string
(rightmost first, as the source iterates the record in reverse). -/
def remove_segments (record : List Segment) (s : Str) : Str :=
  record.reverse.foldl (fun acc seg => acc.take seg.left ++ acc.drop (seg.right + 1)) s

/-- Rust's `str::split(',')` on a character list: always returns at least
one (possibly empty) piece. -/
def split_commas : Str → List Str
  | [] => [[]]
  | ',' :: rest => [] :: split_commas rest
  | c :: rest =>
    match split_commas rest with
    | [] => [[c]]
    | piece :: pieces => (c :: piece) :: pieces

/-- Walks the comma-split pieces, substituting the next recorded
parenthesized span (parentheses intact, sliced from the original string)
for each empty placeholder.  The source indexes the record with a running
counter; running out of record entries is an out-of-bounds panic. -/
def reinsert_segments (orig : Str) : List Str → List Segment → RRes (List Str)
  | [], _ => .ok []
  | seg_str :: rest, record =>
    if seg_str.isEmpty then
      match record with
      | [] => .panicked
      | r :: record' =>
        match reinsert_segments orig rest record' with
        | .ok tl => .ok (((orig.drop r.left).take (r.right + 1 - r.left)) :: tl)
        | .err e => .err e
        | .panicked => .panicked
    else
      match reinsert_segments orig rest record with
      | .ok tl => .ok (seg_str :: tl)
      | .err e => .err e
      | .panicked => .panicked

/-- `parse_tuple_content`: splits the content between the parentheses of a
tuple type into the sub-strings for its element types. -/
def parse_tuple_content (s : Str) : RRes (List Str) :=
  if s.isEmpty then .ok []
  else if s.getLast? = some ',' ∨ s.head? = some ',' then
    .err (.msg "parsing error: tuple content should not start with comma")
  else if contains_consecutive_commas s then
    .err (.msg "no consecutive commas")
  else
    match scan_parens s 0 [] [] with
    | .err e => .err e
    | .panicked => .panicked
    | .ok record =>
      reinsert_segments s (split_commas (remove_segments record s)) record

/-! ### The parser `AbiType::from_str` -/

/-- Whether `pat` is a suffix of `s` (Rust `str::ends_with`). -/
def ends_with (s pat : Str) : Bool := pat.isSuffixOf s

/-- Whether `pat` is a prefix of `s` (Rust `str::starts_with`). -/
def starts_with (s pat : Str) : Bool := pat.isPrefixOf s

/-- Value of a non-empty all-digit string; `none` otherwise. -/
def digits_value (s : Str) : Option Nat :=
  if s ≠ [] ∧ s.all Char.isDigit then
    some (s.foldl (fun a c => 10 * a + (c.toNat - 48)) 0)
  else none

/-- Rust `str::parse::<i32>`: optional sign, decimal digits, range check. -/
def parse_i32 (s : Str) : Option Int :=
  match s with
  | '+' :: rest => (digits_value rest).bind fun n =>
      if n ≤ 2147483647 then some (n : Int) else none
  | '-' :: rest => (digits_value rest).bind fun n =>
      if n ≤ 2147483648 then some (-(n : Int)) else none
  | rest => (digits_value rest).bind fun n =>
      if n ≤ 2147483647 then some (n : Int) else none

/-- Rust `str::parse::<u32>`: optional `+`, decimal digits, range check. -/
def parse_u32 (s : Str) : Option Nat :=
  match s with
  | '+' :: rest => (digits_value rest).bind fun n =>
      if n ≤ 4294967295 then some n else none
  | rest => (digits_value rest).bind fun n =>
      if n ≤ 4294967295 then some n else none

/-- Whether `s` matches the regex `^\d{4}-\d{2}-\d{2}$` that the source's
static-array branch compiles (it is a date pattern; it has no capture
groups, and it can never match a string that ends with `]`). -/
def matches_date_regex : Str → Bool
  | [a, b, c, d, e, f, g, h, i, j] =>
    a.isDigit && b.isDigit && c.isDigit && d.isDigit && e = '-' &&
    f.isDigit && g.isDigit && h = '-' && i.isDigit && j.isDigit
  | _ => false

/-- Whether `g` matches `[1-9][\d]*`. -/
def nonzero_digit_run : Str → Bool
  | [] => false
  | c :: cs => ('1' ≤ c && c ≤ '9') && cs.all Char.isDigit

/-- Splits a string at the first occurrence of `c`. -/
def split_first (c : Char) : Str → Option (Str × Str)
  | [] => none
  | a :: rest =>
    if a = c then some ([], rest)
    else
      match split_first c rest with
      | some (l, r) => some (a :: l, r)
      | none => none

/-- The two capture groups of `^ufixed([1-9][\d]*)x([1-9][\d]*)$` applied
to `rest` (the text after the `ufixed` keyword), when the regex matches.
Since `[\d]` cannot match `x`, group 1 necessarily ends at the first `x`
of `rest` and group 2 must cover the remainder; the regex matches exactly
when both parts are digit runs with a non-zero leading digit. -/
def ufixed_captures (rest : Str) : Option (Str × Str) :=
  match split_first 'x' rest with
  | some (g1, g2) =>
    if nonzero_digit_run g1 && nonzero_digit_run g2 then some (g1, g2) else none
  | none => none

/-- `AbiType::from_str`, fuel-indexed.  All recursive calls are on strictly
shorter strings, so fuel `s.length + 1` (used by `from_str`) never runs
out; the fuel-0 case is therefore unreachable.  The branch structure and
its order mirror the source exactly.  In the `ends_with ']'` branch the
source matches the input against the date regex `^\d{4}-\d{2}-\d{2}$` and
unconditionally `unwrap`s the captures: since that regex requires the last
character to be a digit, it never matches here, and the `unwrap` of `None`
panics (the subsequent length parsing of the source is dead code; had the
regex matched, its capture count 1 would fail the `!= 3` check with the
"ill formed uint type" error).  In the `ufixed` branch the source likewise
`unwrap`s the captures of `^ufixed([1-9][\d]*)x([1-9][\d]*)$`, panicking
whenever the suffix does not match; when it matches, the capture count is
always 3, so the `!= 3` check never fires. -/
def from_str_go : Nat → Str → RRes AbiType
  | 0, _ => .panicked
  | fuel + 1, s =>
    if ends_with s "[]".data then
      -- strip_suffix("[]") and recurse for the element type
      match from_str_go fuel (s.take (s.length - 2)) with
      | .ok array_arg_type => .ok (make_dynamic_array_type array_arg_type)
      | .err e => .err e
      | .panicked => .panicked
    else if ends_with s "]".data then
      if matches_date_regex s then .err (.msg "ill formed uint type")
      else .panicked
    else if starts_with s "uint".data then
      match parse_i32 (s.drop 4) with
      | none => .err (.msg "Ill formed uint type")
      | some type_size => make_uint_type type_size
    else if s = "byte".data then
      .ok (make_empty_fields_type BYTE)
    else if starts_with s "ufixed".data then
      match ufixed_captures (s.drop 6) with
      | none => .panicked
      | some (g1, g2) =>
        match parse_u32 g1 with
        | none => .err (.msg "Error parsing ufixed size")
        | some ufixed_size =>
          match parse_u32 g2 with
          | none => .err (.msg "Error parsing ufixed precision")
          | some ufixed_precision => make_ufixed_type ufixed_size ufixed_precision
    else if s = "bool".data then
      .ok (make_empty_fields_type BOOL)
    else if s = "address".data then
      .ok (make_empty_fields_type ADDRESS)
    else if s = "string".data then
      .ok (make_empty_fields_type STRING)
    else if 2 ≤ s.length ∧ s.head? = some '(' ∧ s.getLast? = some ')' then
      match parse_tuple_content ((s.take (s.length - 1)).drop 1) with
      | .err e => .err e
      | .panicked => .panicked
      | .ok tuple_content =>
        match collect_results (from_str_go fuel) tuple_content with
        | .ok tuple_types => make_tuple_type tuple_types
        | .err e => .err e
        | .panicked => .panicked
    else .err (.msg "cannot convert string to ABI type")

/-- `AbiType::from_str` (the `FromStr` implementation / `str::parse`). -/
def from_str (s : Str) : RRes AbiType := from_str_go (s.length + 1) s

/-! ### Methods and signatures (interactions.rs) -/

/-- `TransactionArgType`: the seven transaction-kind pseudo-types. -/
inductive TransactionArgType where
  | any | payment | keyRegistration | assetConfig
  | assetTransfer | assetFreeze | appCall
deriving Repr

/-- `TransactionArgType::from_api_str`. -/
def TransactionArgType.from_api_str (s : Str) : RRes TransactionArgType :=
  if s = "Any".data then .ok .any
  else if s = "Payment".data then .ok .payment
  else if s = "KeyRegistration".data then .ok .keyRegistration
  else if s = "AssetConfig".data then .ok .assetConfig
  else if s = "AssetTransfer".data then .ok .assetTransfer
  else if s = "AssetFreeze".data then .ok .assetFreeze
  else if s = "AppCall".data then .ok .appCall
  else .err (.msg "Not supported transaction arg type api string")

/-- `TransactionArgType::is_valid_str`. -/
def TransactionArgType.is_valid_str (s : Str) : Bool :=
  (TransactionArgType.from_api_str s).isOk

/-- `ReferenceArgType`: the three reference-kind pseudo-types. -/
inductive ReferenceArgType where
  | account | asset | application
deriving Repr

/-- `ReferenceArgType::from_api_str`. -/
def ReferenceArgType.from_api_str (s : Str) : RRes ReferenceArgType :=
  if s = "AccountReferenceType".data then .ok .account
  else if s = "AssetReferenceType".data then .ok .asset
  else if s = "ApplicationReferenceType".data then .ok .application
  else .err (.msg "Not supported reference arg type api string")

/-- `ReferenceArgType::is_valid_str`. -/
def ReferenceArgType.is_valid_str (s : Str) : Bool :=
  (ReferenceArgType.from_api_str s).isOk

/-- `AbiArg`: an ABI method argument.  `type_` is the raw type string and
`parsed` the cache that holds the parsed type object. -/
structure AbiArg where
  name : Option Str
  type_ : Str
  description : Option Str
  parsed : Option AbiType

/-- `AbiArg::is_transaction_arg`. -/
def AbiArg.is_transaction_arg (a : AbiArg) : Bool :=
  TransactionArgType.is_valid_str a.type_

/-- `AbiArg::is_reference_arg`. -/
def AbiArg.is_reference_arg (a : AbiArg) : Bool :=
  ReferenceArgType.is_valid_str a.type_

/-- `AbiArg::get_type_object`: the source mutates `self` (fills the
`parsed` cache); this is modelled by returning the updated argument
alongside the type object. -/
def AbiArg.get_type_object (a : AbiArg) : RRes (AbiType × AbiArg) :=
  if a.is_transaction_arg then .err (.msg "Invalid operation on transaction type")
  else if a.is_reference_arg then .err (.msg "Invalid operation on reference type")
  else
    match a.parsed with
    | some parsed => .ok (parsed, a)
    | none =>
      match from_str a.type_ with
      | .ok type_obj => .ok (type_obj, { a with parsed := some type_obj })
      | .err e => .err e
      | .panicked => .panicked

/-- `AbiReturn`: an ABI method return value. -/
structure AbiReturn where
  type_ : Str
  description : Option Str
  parsed : Option AbiType

/-- `AbiReturn::is_void`. -/
def AbiReturn.is_void (r : AbiReturn) : Bool := r.type_ = "void".data

/-- `AbiReturn::get_type_object`, modelled like `AbiArg.get_type_object`. -/
def AbiReturn.get_type_object (r : AbiReturn) : RRes (AbiType × AbiReturn) :=
  if r.is_void then .err (.msg "Invalid operation on void return type")
  else
    match r.parsed with
    | some parsed => .ok (parsed, r)
    | none =>
      match from_str r.type_ with
      | .ok type_obj => .ok (type_obj, { r with parsed := some type_obj })
      | .err e => .err e
      | .panicked => .panicked

/-- `AbiMethod`. -/
structure AbiMethod where
  name : Str
  description : Option Str
  args : List AbiArg
  returns : AbiReturn

/-- `AbiMethod::get_signature`:
`<name>(<type_0>,...,<type_k>)<return_type>`, built from the stored raw
type strings. -/
def AbiMethod.get_signature (m : AbiMethod) : Str :=
  m.name ++ "(".data ++ List.intercalate ",".data (m.args.map fun a => a.type_)
    ++ ")".data ++ m.returns.type_

/-- `AbiMethod::get_tx_count`: 1 plus the number of transaction-kind
arguments. -/
def AbiMethod.get_tx_count (m : AbiMethod) : Nat :=
  1 + (m.args.filter fun a => a.is_transaction_arg).length

/-! ### SHA-512/256 (the `sha2::Sha512_256` digest used by `get_selector`)

The digest is library code outside this repository; it is embedded here
from the FIPS 180-4 description of SHA-512 with the SHA-512/256 initial
hash value and a 256-bit (first four words) output.  Words are naturals
reduced modulo 2^64.  `nforce` brings every intermediate word to a literal
before it is stored, so that kernel reduction of a concrete digest is
linear. -/

/-- Forces a natural number to a literal before passing it on (makes
kernel whnf evaluation call-by-value). -/
def nforce {α : Type} (n : Nat) (k : Nat → α) : α :=
  match n with
  | 0 => k 0
  | m + 1 => k (m + 1)

/-- 2^64. -/
def U64MOD : Nat := 18446744073709551616

/-- Reduction modulo 2^64. -/
def w64 (n : Nat) : Nat := n % U64MOD

/-- Right rotation of a 64-bit word. -/
def rotr64 (n x : Nat) : Nat := w64 ((x >>> n) ||| (x <<< (64 - n)))

/-- Bitwise complement of a 64-bit word. -/
def not64 (x : Nat) : Nat := x ^^^ (U64MOD - 1)

/-- SHA-512 `Ch`. -/
def sha_ch (x y z : Nat) : Nat := (x &&& y) ^^^ (not64 x &&& z)

/-- SHA-512 `Maj`. -/
def sha_maj (x y z : Nat) : Nat := (x &&& y) ^^^ (x &&& z) ^^^ (y &&& z)

/-- SHA-512 `Σ0`. -/
def big_sigma0 (x : Nat) : Nat := rotr64 28 x ^^^ rotr64 34 x ^^^ rotr64 39 x

/-- SHA-512 `Σ1`. -/
def big_sigma1 (x : Nat) : Nat := rotr64 14 x ^^^ rotr64 18 x ^^^ rotr64 41 x

/-- SHA-512 `σ0`. -/
def small_sigma0 (x : Nat) : Nat := rotr64 1 x ^^^ rotr64 8 x ^^^ (x >>> 7)

/-- SHA-512 `σ1`. -/
def small_sigma1 (x : Nat) : Nat := rotr64 19 x ^^^ rotr64 61 x ^^^ (x >>> 6)

/-- The 80 SHA-512 round constants. -/
def shaK : List Nat :=
  [4794697086780616226, 8158064640168781261, 13096744586834688815,
   16840607885511220156, 4131703408338449720, 6480981068601479193,
   10538285296894168987, 12329834152419229976, 15566598209576043074,
   1334009975649890238, 2608012711638119052, 6128411473006802146,
   8268148722764581231, 9286055187155687089, 11230858885718282805,
   13951009754708518548, 16472876342353939154, 17275323862435702243,
   1135362057144423861, 2597628984639134821, 3308224258029322869,
   5365058923640841347, 6679025012923562964, 8573033837759648693,
   10970295158949994411, 12119686244451234320, 12683024718118986047,
   13788192230050041572, 14330467153632333762, 15395433587784984357,
   489312712824947311, 1452737877330783856, 2861767655752347644,
   3322285676063803686, 5560940570517711597, 5996557281743188959,
   7280758554555802590, 8532644243296465576, 9350256976987008742,
   10552545826968843579, 11727347734174303076, 12113106623233404929,
   14000437183269869457, 14369950271660146224, 15101387698204529176,
   15463397548674623760, 17586052441742319658, 1182934255886127544,
   1847814050463011016, 2177327727835720531, 2830643537854262169,
   3796741975233480872, 4115178125766777443, 5681478168544905931,
   6601373596472566643, 7507060721942968483, 8399075790359081724,
   8693463985226723168, 9568029438360202098, 10144078919501101548,
   10430055236837252648, 11840083180663258601, 13761210420658862357,
   14299343276471374635, 14566680578165727644, 15097957966210449927,
   16922976911328602910, 17689382322260857208, 500013540394364858,
   748580250866718886, 1242879168328830382, 1977374033974150939,
   2944078676154940804, 3659926193048069267, 4368137639120453308,
   4836135668995329356, 5532061633213252278, 6448918945643986474,
   6902733635092675308, 7801388544844847127]

/-- The SHA-512 working state (a, b, c, d, e, f, g, h). -/
abbrev ShaState := Nat × Nat × Nat × Nat × Nat × Nat × Nat × Nat

/-- The SHA-512/256 initial hash value. -/
def sha512_256_iv : ShaState :=
  (2463787394917988140,
   11481187982095705282,
   2563595384472711505,
   10824532655140301501,
   10819967247969091555,
   13717434660681038226,
   3098927326965381290,
   1060366662362279074)

/-- The `k` most significant bytes (big endian) of an integer, as a list. -/
def bytes_be : Nat → Nat → List Nat
  | 0, _ => []
  | k + 1, n => ((n >>> (8 * k)) &&& 255) :: bytes_be k n

/-- FIPS padding: append `0x80`, zeros, and the 128-bit big-endian bit
length, up to a multiple of 128 bytes. -/
def sha_pad (msg : List Nat) : List Nat :=
  msg ++ 0x80 :: List.replicate ((128 - ((msg.length + 17) % 128)) % 128) 0
      ++ bytes_be 16 (8 * msg.length)

/-- Big-endian grouping of bytes into 64-bit words. -/
def to_words : List Nat → List Nat
  | b0 :: b1 :: b2 :: b3 :: b4 :: b5 :: b6 :: b7 :: rest =>
    nforce (b0 <<< 56 ||| b1 <<< 48 ||| b2 <<< 40 ||| b3 <<< 32 |||
            b4 <<< 24 ||| b5 <<< 16 ||| b6 <<< 8 ||| b7) fun w =>
    w :: to_words rest
  | _ => []

/-- Grouping of words into blocks of 16. -/
def to_blocks : List Nat → List (List Nat)
  | w0 :: w1 :: w2 :: w3 :: w4 :: w5 :: w6 :: w7 ::
    w8 :: w9 :: w10 :: w11 :: w12 :: w13 :: w14 :: w15 :: rest =>
    [w0, w1, w2, w3, w4, w5, w6, w7, w8, w9, w10, w11, w12, w13, w14, w15]
      :: to_blocks rest
  | _ => []

/-- Message schedule extension; `acc` holds the words produced so far,
newest first, so `acc[1]`, `acc[6]`, `acc[14]`, `acc[15]` are
`w[t-2]`, `w[t-7]`, `w[t-15]`, `w[t-16]`. -/
def extend_loop : Nat → List Nat → List Nat
  | 0, acc => acc
  | n + 1, acc =>
    nforce (w64 (small_sigma1 (acc.getD 1 0) + acc.getD 6 0 +
                 small_sigma0 (acc.getD 14 0) + acc.getD 15 0)) fun w =>
    extend_loop n (w :: acc)

/-- The 80-word message schedule of a block. -/
def sha_schedule (block : List Nat) : List Nat :=
  (extend_loop 64 block.reverse).reverse

/-- One SHA-512 round. -/
def sha_round (st : ShaState) (kc w : Nat) : ShaState :=
  match st with
  | (a, b, c, d, e, f, g, h) =>
    nforce (w64 (h + big_sigma1 e + sha_ch e f g + kc + w)) fun t1 =>
    nforce (w64 (big_sigma0 a + sha_maj a b c)) fun t2 =>
    nforce (w64 (t1 + t2)) fun a' =>
    nforce (w64 (d + t1)) fun e' =>
    (a', a, b, c, e', e, f, g)

/-- The 80 rounds over the zipped constants and schedule. -/
def sha_rounds : List (Nat × Nat) → ShaState → ShaState
  | [], st => st
  | (kc, w) :: rest, st => sha_rounds rest (sha_round st kc w)

/-- Componentwise addition modulo 2^64 of two states. -/
def sha_add8 (x y : ShaState) : ShaState :=
  match x, y with
  | (a, b, c, d, e, f, g, h), (a', b', c', d', e', f', g', h') =>
    nforce (w64 (a + a')) fun ra => nforce (w64 (b + b')) fun rb =>
    nforce (w64 (c + c')) fun rc => nforce (w64 (d + d')) fun rd =>
    nforce (w64 (e + e')) fun re => nforce (w64 (f + f')) fun rf =>
    nforce (w64 (g + g')) fun rg => nforce (w64 (h + h')) fun rh =>
    (ra, rb, rc, rd, re, rf, rg, rh)

/-- Compression of one 16-word block into the running state. -/
def sha_compress_block (st : ShaState) (block : List Nat) : ShaState :=
  sha_add8 st (sha_rounds (shaK.zip (sha_schedule block)) st)

/-- SHA-512/256 of a byte list: the first four words (32 bytes) of the
final hash value, big endian. -/
def sha512_256 (msg : List Nat) : List Nat :=
  match (to_blocks (to_words (sha_pad msg))).foldl sha_compress_block sha512_256_iv with
  | (a, b, c, d, _, _, _, _) =>
    bytes_be 8 a ++ bytes_be 8 b ++ bytes_be 8 c ++ bytes_be 8 d

/-- UTF-8 encoding of one character. -/
def utf8_char (c : Char) : List Nat :=
  let n := c.toNat
  if n < 0x80 then [n]
  else if n < 0x800 then
    [0xC0 ||| (n >>> 6), 0x80 ||| (n &&& 0x3F)]
  else if n < 0x10000 then
    [0xE0 ||| (n >>> 12), 0x80 ||| ((n >>> 6) &&& 0x3F), 0x80 ||| (n &&& 0x3F)]
  else
    [0xF0 ||| (n >>> 18), 0x80 ||| ((n >>> 12) &&& 0x3F),
     0x80 ||| ((n >>> 6) &&& 0x3F), 0x80 ||| (n &&& 0x3F)]

/-- UTF-8 encoding of a string. -/
def utf8_encode (s : Str) : List Nat := (s.map utf8_char).flatten

/-- `AbiMethod::get_selector`: the first 4 bytes of the SHA-512/256 digest
of the UTF-8 signature.  The source slices `sig_hash[..4]` (a panic if the
digest had fewer than 4 bytes) and converts with
`try_into().expect(..)` (infallible on a 4-byte slice). -/
def AbiMethod.get_selector (m : AbiMethod) : RRes (List Nat) :=
  let sig_hash := sha512_256 (utf8_encode m.get_signature)
  if 4 ≤ sig_hash.length then .ok (sig_hash.take 4) else .panicked

/-- The slice `&s[a..b]`. -/
def slice_str (s : Str) (a b : Nat) : Str := (s.take b).drop a

/-- The scanning loop of `parse_method_args`: `cur_pos` iterates from
`start_idx + 1` to `s.length - 1`; the fuel counts the remaining
iterations (the wrapper passes `s.length - cur_pos`, so the character
lookup's default is never used and fuel 0 coincides with the loop running
off the end of the string, in which case `close_idx` was never set and the
source reports a parenthesis mismatch). -/
def pma_loop (s : Str) : Nat → Nat → Int → Nat → List Str → RRes (List Str × Nat)
  | 0, _, _, _, _ => .err (.msg "method signature parentheses mismatch")
  | fuel + 1, cur_pos, paren_cnt, prev_pos, acc =>
    let c := s.getD cur_pos ' '
    let pc : Int := if c = '(' then paren_cnt + 1
                    else if c = ')' then paren_cnt - 1
                    else paren_cnt
    if pc < 0 then .err (.msg "method signature parentheses mismatch")
    else if pc > 1 then pma_loop s fuel (cur_pos + 1) pc prev_pos acc
    else if c = ',' ∨ pc = 0 then
      if pc = 0 then .ok (acc ++ [slice_str s prev_pos cur_pos], cur_pos)
      else pma_loop s fuel (cur_pos + 1) pc (cur_pos + 1)
             (acc ++ [slice_str s prev_pos cur_pos])
    else pma_loop s fuel (cur_pos + 1) pc prev_pos acc

/-- `parse_method_args`: parses the top-level argument segments between the
opening parenthesis at `start_idx` and its matching closing parenthesis,
returning them with the index of that closing parenthesis. -/
def parse_method_args (s : Str) (start_idx : Nat) : RRes (List Str × Nat) :=
  if start_idx < s.length - 1 ∧ s.get? (start_idx + 1) = some ')' then
    .ok ([], start_idx + 1)
  else
    pma_loop s (s.length - (start_idx + 1)) (start_idx + 1) 1 (start_idx + 1) []

/-- `str::chars().position(p)`. -/
def position_of (p : Char → Bool) : Str → Option Nat
  | [] => none
  | c :: rest => if p c then some 0 else (position_of p rest).map (· + 1)

/-- The argument-processing loop of `from_signature`: each segment becomes
an `AbiArg` with the raw string as its type; unless it is a transaction- or
reference-kind keyword, its type object cache is filled eagerly and a
resolution failure aborts the whole signature. -/
def process_args_loop : List Str → RRes (List AbiArg)
  | [] => .ok []
  | arg_type :: rest =>
    let arg : AbiArg := { name := none, type_ := arg_type, description := none, parsed := none }
    if TransactionArgType.is_valid_str arg_type || ReferenceArgType.is_valid_str arg_type then
      match process_args_loop rest with
      | .ok args => .ok (arg :: args)
      | .err e => .err e
      | .panicked => .panicked
    else
      match arg.get_type_object with
      | .ok (_, arg') =>
        match process_args_loop rest with
        | .ok args => .ok (arg' :: args)
        | .err e => .err e
        | .panicked => .panicked
      | .err e => .err e
      | .panicked => .panicked

/-- `AbiMethod::from_signature`: decodes a method signature string. -/
def AbiMethod.from_signature (method_str : Str) : RRes AbiMethod :=
  match position_of (fun c => c = '(') method_str with
  | none => .err (.msg "method signature is missing an open parenthesis")
  | some open_idx =>
    if (method_str.take open_idx).isEmpty then
      .err (.msg "method must have a non empty name")
    else
      match parse_method_args method_str open_idx with
      | .err e => .err e
      | .panicked => .panicked
      | .ok (arg_types, close_idx) =>
        let return_type : AbiReturn :=
          { type_ := method_str.drop (close_idx + 1), description := none, parsed := none }
        match
          (if return_type.is_void then .ok return_type
           else
             match return_type.get_type_object with
             | .ok (_, r') => .ok r'
             | .err e => .err e
             | .panicked => .panicked : RRes AbiReturn)
        with
        | .err e => .err e
        | .panicked => .panicked
        | .ok returns =>
          match process_args_loop arg_types with
          | .err e => .err e
          | .panicked => .panicked
          | .ok args =>
            .ok { name := method_str.take open_idx, description := none,
                  args := args, returns := returns }

/-- The `uint32` scalar type object. -/
def uint32_type : AbiType := .mk UINT [] (some 32) none none

/-- The method decoded from `add(uint32,uint32)uint32` (type caches
filled eagerly by `from_signature`). -/
def add_method_parsed : AbiMethod :=
  { name := "add".data, description := none,
    args := [{ name := none, type_ := "uint32".data, description := none,
               parsed := some uint32_type },
             { name := none, type_ := "uint32".data, description := none,
               parsed := some uint32_type }],
    returns := { type_ := "uint32".data, description := none,
                 parsed := some uint32_type } }

/-- Specification-side parenthesis balance check: scans left to right with
a depth counter; `false` when a `)` appears at depth 0 or the final depth
is non-zero — i.e. exactly when the string has an unmatched `(` or `)`. -/
def bal_go : Str → Int → Bool
  | [], d => d == 0
  | c :: rest, d =>
    if c = '(' then bal_go rest (d + 1)
    else if c = ')' then (if d == 0 then false else bal_go rest (d - 1))
    else bal_go rest d

/-- The seven transaction-kind keywords. -/
def tx_keywords : List Str :=
  ["Any".data, "Payment".data, "KeyRegistration".data, "AssetConfig".data,
   "AssetTransfer".data, "AssetFreeze".data, "AppCall".data]

/-- The method value of the source's `test_get_selector` (caches empty). -/
def add_method : AbiMethod :=
  { name := "add".data, description := none,
    args := [{ name := none, type_ := "uint32".data, description := none, parsed := none },
             { name := none, type_ := "uint32".data, description := none, parsed := none }],
    returns := { type_ := "uint32".data, description := none, parsed := none } }

/-! ### List infrastructure for the round-trip proofs -/

/-- `intercalate` of a singleton. -/
theorem intercalate_single (sep x : Str) : List.intercalate sep [x] = x := by
  simp [List.intercalate]

/-- `intercalate` over a cons with a non-empty tail. -/
theorem intercalate_cons_of_ne_nil (sep x : Str) {xs : List Str} (h : xs ≠ []) :
    List.intercalate sep (x :: xs) = x ++ sep ++ List.intercalate sep xs := by
  obtain ⟨y, ys, rfl⟩ := List.exists_cons_of_ne_nil h
  simp [List.intercalate, List.intersperse_cons_cons, List.append_assoc]

/-- Splitting a slice at an interior index. -/
theorem slice_str_split (s : Str) {a m b : Nat} (h1 : a ≤ m) (h2 : m ≤ b)
    (h3 : b ≤ s.length) : slice_str s a b = slice_str s a m ++ slice_str s m b := by
  have hmin : (s.take b).take m = s.take m := by
    rw [List.take_take, Nat.min_eq_left h2]
  have hlen : ((s.take b).take m).length = m := by
    rw [hmin, List.length_take]; omega
  calc slice_str s a b
      = ((s.take b).take m ++ (s.take b).drop m).drop a := by
        rw [List.take_append_drop]; rfl
    _ = ((s.take b).take m).drop a ++ ((s.take b).drop m).drop (a - m) := by
        rw [List.drop_append_eq_append_drop, hlen]
    _ = slice_str s a m ++ slice_str s m b := by
        have hz : a - m = 0 := by omega
        rw [hmin, hz, List.drop_zero]; rfl

/-- Peeling the first character off a slice. -/
theorem slice_str_cons (s : Str) {a b : Nat} (hab : a < b) (ha : a < s.length) :
    slice_str s a b = s.getD a ' ' :: slice_str s (a + 1) b := by
  unfold slice_str
  have h' : a < (s.take b).length := by rw [List.length_take]; omega
  rw [List.drop_eq_getElem_cons h', List.getElem_take, List.getD_eq_getElem s ' ' ha]

/-- A slice followed by the rest of the string is a suffix. -/
theorem slice_str_append_drop (s : Str) {a b : Nat} (h1 : a ≤ b) (h2 : b ≤ s.length) :
    slice_str s a b ++ s.drop b = s.drop a := by
  conv_rhs => rw [← List.take_append_drop b s]
  rw [List.drop_append_eq_append_drop, List.length_take]
  have hz : a - min b s.length = 0 := by omega
  rw [hz, List.drop_zero]; rfl

/-- An empty slice. -/
theorem slice_str_self (s : Str) (a : Nat) : slice_str s a a = [] := by
  unfold slice_str
  apply List.drop_eq_nil_of_le
  rw [List.length_take]; omega

/-- Reassembling a string from the pieces around positions `i < j`. -/
theorem assemble_around (s : Str) {i j : Nat} (hij : i < j) (hj : j < s.length) :
    s.take i ++ s.getD i ' ' ::
      (slice_str s (i + 1) j ++ s.getD j ' ' :: s.drop (j + 1)) = s := by
  have hi : i < s.length := Nat.lt_trans hij hj
  have h1 : s.getD j ' ' :: s.drop (j + 1) = s.drop j := by
    rw [List.drop_eq_getElem_cons hj, List.getD_eq_getElem s ' ' hj]
  have h2 : slice_str s (i + 1) j ++ s.drop j = s.drop (i + 1) :=
    slice_str_append_drop s (by omega) (by omega)
  have h3 : s.getD i ' ' :: s.drop (i + 1) = s.drop i := by
    rw [List.drop_eq_getElem_cons hi, List.getD_eq_getElem s ' ' hi]
  rw [h1, h2, h3, List.take_append_drop]

/-- Invariant of the scanning loop of `parse_method_args`: a successful
run starting at `cur` with depth `pc ≥ 1` and segment start `prev ≤ cur`
appends to `acc` a non-empty list of segments whose comma-joined
concatenation is exactly the text from `prev` up to the closing
parenthesis it reports. -/
theorem pma_loop_ok (s : Str) (fuel : Nat) :
    ∀ cur pc prev acc args close,
      pma_loop s fuel cur pc prev acc = .ok (args, close) →
      fuel + cur = s.length → prev ≤ cur → 1 ≤ pc →
      ∃ segs, segs ≠ [] ∧ args = acc ++ segs ∧
        List.intercalate [','] segs = slice_str s prev close ∧
        cur ≤ close ∧ close < s.length ∧ s.getD close ' ' = ')' := by
  induction fuel with
  | zero =>
    intro cur pc prev acc args close h _ _ _
    simp [pma_loop] at h
  | succ fuel ih =>
    intro cur pc prev acc args close h hfuel hprev hpc
    have hcur : cur < s.length := by omega
    simp only [pma_loop] at h
    by_cases h1 : s.getD cur ' ' = '('
    · rw [if_pos h1, if_neg (show ¬(pc + 1 < 0) by omega),
        if_pos (show pc + 1 > 1 by omega)] at h
      obtain ⟨segs, hne, harg, hint, hcl, hlen, hcc⟩ :=
        ih (cur + 1) (pc + 1) prev acc args close h (by omega) (by omega) (by omega)
      exact ⟨segs, hne, harg, hint, by omega, hlen, hcc⟩
    · rw [if_neg h1] at h
      by_cases h2 : s.getD cur ' ' = ')'
      · rw [if_pos h2] at h
        by_cases hpc1 : pc = 1
        · subst hpc1
          rw [if_neg (show ¬((1 : Int) - 1 < 0) by omega),
            if_neg (show ¬((1 : Int) - 1 > 1) by omega),
            if_pos (Or.inr (show (1 : Int) - 1 = 0 by omega)),
            if_pos (show (1 : Int) - 1 = 0 by omega)] at h
          obtain ⟨h', h''⟩ := Prod.mk.injEq .. ▸ RRes.ok.inj h
          refine ⟨[slice_str s prev cur], by simp, h'.symm ▸ rfl, ?_, ?_, ?_, ?_⟩
          · rw [intercalate_single, ← h'']
          · omega
          · omega
          · rw [← h'']; exact h2
        · rw [if_neg (show ¬(pc - 1 < 0) by omega)] at h
          by_cases hgt : pc - 1 > 1
          · rw [if_pos hgt] at h
            obtain ⟨segs, hne, harg, hint, hcl, hlen, hcc⟩ :=
              ih (cur + 1) (pc - 1) prev acc args close h (by omega) (by omega) (by omega)
            exact ⟨segs, hne, harg, hint, by omega, hlen, hcc⟩
          · rw [if_neg hgt,
              if_neg (show ¬(s.getD cur ' ' = ',' ∨ pc - 1 = 0) by
                rintro (hx | hx)
                · rw [h2] at hx; exact absurd hx (by decide)
                · omega)] at h
            obtain ⟨segs, hne, harg, hint, hcl, hlen, hcc⟩ :=
              ih (cur + 1) (pc - 1) prev acc args close h (by omega) (by omega) (by omega)
            exact ⟨segs, hne, harg, hint, by omega, hlen, hcc⟩
      · rw [if_neg h2, if_neg (show ¬(pc < 0) by omega)] at h
        by_cases hgt : pc > 1
        · rw [if_pos hgt] at h
          obtain ⟨segs, hne, harg, hint, hcl, hlen, hcc⟩ :=
            ih (cur + 1) pc prev acc args close h (by omega) (by omega) (by omega)
          exact ⟨segs, hne, harg, hint, by omega, hlen, hcc⟩
        · rw [if_neg hgt] at h
          by_cases h3 : s.getD cur ' ' = ','
          · rw [if_pos (Or.inl h3), if_neg (show ¬(pc = 0) by omega)] at h
            obtain ⟨segs', hne', harg', hint', hcl', hlen', hcc'⟩ :=
              ih (cur + 1) pc (cur + 1) (acc ++ [slice_str s prev cur]) args close h
                (by omega) (by omega) (by omega)
            refine ⟨slice_str s prev cur :: segs', by simp, ?_, ?_, by omega, hlen', hcc'⟩
            · rw [harg']; simp [List.append_assoc]
            · rw [intercalate_cons_of_ne_nil _ _ hne', hint',
                slice_str_split s hprev (show cur ≤ close by omega) (by omega),
                slice_str_cons s (show cur < close by omega) hcur, h3]
              simp [List.append_assoc]
          · rw [if_neg (show ¬(s.getD cur ' ' = ',' ∨ pc = 0) by
                rintro (hx | hx)
                · exact h3 hx
                · omega)] at h
            obtain ⟨segs, hne, harg, hint, hcl, hlen, hcc⟩ :=
              ih (cur + 1) pc prev acc args close h (by omega) (by omega) (by omega)
            exact ⟨segs, hne, harg, hint, by omega, hlen, hcc⟩

/-- A successful `parse_method_args` reports a closing parenthesis after
`start_idx`, and joining the returned segments with commas reproduces the
text strictly between `start_idx` and that closing parenthesis. -/
theorem parse_method_args_ok {s : Str} {start_idx : Nat} {args : List Str}
    {close : Nat} (h : parse_method_args s start_idx = .ok (args, close)) :
    List.intercalate [','] args = slice_str s (start_idx + 1) close ∧
    start_idx < close ∧ close < s.length ∧ s.getD close ' ' = ')' := by
  unfold parse_method_args at h
  by_cases hsp : start_idx < s.length - 1 ∧ s.get? (start_idx + 1) = some ')'
  · rw [if_pos hsp] at h
    obtain ⟨h', h''⟩ := Prod.mk.injEq .. ▸ RRes.ok.inj h
    obtain ⟨hlt, hget⟩ := hsp
    rw [List.get?_eq_getElem?] at hget
    obtain ⟨hlen, hel⟩ := List.getElem?_eq_some_iff.mp hget
    subst h''
    refine ⟨?_, by omega, hlen, ?_⟩
    · rw [← h']; simp [List.intercalate, slice_str_self]
    · rw [List.getD_eq_getElem s ' ' hlen, hel]
  · rw [if_neg hsp] at h
    by_cases hle : start_idx + 1 ≤ s.length
    · obtain ⟨segs, hne, harg, hint, hcl, hlen, hcc⟩ :=
        pma_loop_ok s (s.length - (start_idx + 1)) (start_idx + 1) 1 (start_idx + 1)
          [] args close h (by omega) (by omega) (by omega)
      simp only [List.nil_append] at harg
      subst harg
      exact ⟨hint, by omega, hlen, hcc⟩
    · rw [show s.length - (start_idx + 1) = 0 by omega] at h
      simp [pma_loop] at h

/-- `position_of p s = some i` means `i` is in bounds and the character
there satisfies `p`. -/
theorem position_of_spec (p : Char → Bool) :
    ∀ (s : Str) (i : Nat), position_of p s = some i →
      i < s.length ∧ p (s.getD i ' ') = true := by
  intro s
  induction s with
  | nil => intro i h; simp [position_of] at h
  | cons c rest ih =>
    intro i h
    simp only [position_of] at h
    by_cases hp : p c
    · rw [if_pos hp] at h
      obtain rfl := Option.some.inj h
      exact ⟨by simp, by simpa using hp⟩
    · rw [if_neg hp] at h
      obtain ⟨j, hj, rfl⟩ := Option.map_eq_some'.mp h
      obtain ⟨hlt, hpj⟩ := ih j hj
      exact ⟨by simpa using hlt, by simpa using hpj⟩

/-- Filling the type cache of an argument does not change its raw type. -/
theorem arg_get_type_object_keeps_type {a : AbiArg} {t : AbiType} {a' : AbiArg}
    (h : a.get_type_object = .ok (t, a')) : a'.type_ = a.type_ := by
  unfold AbiArg.get_type_object at h
  split at h
  · exact absurd h (by simp)
  · split at h
    · exact absurd h (by simp)
    · split at h
      · obtain ⟨_, h''⟩ := Prod.mk.injEq .. ▸ RRes.ok.inj h
        rw [← h'']
      · split at h
        · obtain ⟨_, h''⟩ := Prod.mk.injEq .. ▸ RRes.ok.inj h
          rw [← h'']
        · exact absurd h (by simp)
        · exact absurd h (by simp)

/-- Filling the type cache of a return does not change its raw type. -/
theorem return_get_type_object_keeps_type {r : AbiReturn} {t : AbiType} {r' : AbiReturn}
    (h : r.get_type_object = .ok (t, r')) : r'.type_ = r.type_ := by
  unfold AbiReturn.get_type_object at h
  split at h
  · exact absurd h (by simp)
  · split at h
    · obtain ⟨_, h''⟩ := Prod.mk.injEq .. ▸ RRes.ok.inj h
      rw [← h'']
    · split at h
      · obtain ⟨_, h''⟩ := Prod.mk.injEq .. ▸ RRes.ok.inj h
        rw [← h'']
      · exact absurd h (by simp)
      · exact absurd h (by simp)

/-- The argument-processing loop keeps the raw type strings verbatim. -/
theorem process_args_loop_types :
    ∀ (ts : List Str) (args : List AbiArg), process_args_loop ts = .ok args →
      (args.map fun a => a.type_) = ts := by
  intro ts
  induction ts with
  | nil =>
    intro args h
    simp only [process_args_loop] at h
    obtain rfl := RRes.ok.inj h
    rfl
  | cons t rest ih =>
    intro args h
    simp only [process_args_loop] at h
    split at h
    · split at h
      · obtain rfl := RRes.ok.inj h
        simpa using ih _ (by assumption)
      · exact absurd h (by simp)
      · exact absurd h (by simp)
    · split at h
      · rename_i t0 arg' hgto
        split at h
        · obtain rfl := RRes.ok.inj h
          have harg' := arg_get_type_object_keeps_type hgto
          simp only [List.map_cons, harg']
          rw [ih _ (by assumption)]
        · exact absurd h (by simp)
        · exact absurd h (by simp)
      · exact absurd h (by simp)
      · exact absurd h (by simp)

/-! ### Claim theorems: concrete evaluations -/

/-- C1: the claimed type-codec round trip fails on the code.  The
constructible value `UFixed bits=8 precision=1` serializes to `ufixed81`
(the source's format string omits the `x` separator), and parsing that
string back panics (the `ufixed` regex requires an `x`), so
`parse(format(t)) = t` does not hold; dually, `ufixed8x1` is accepted by
the parser but `format(parse("ufixed8x1")) = "ufixed81" ≠ "ufixed8x1"`. -/
theorem c1_ufixed_roundtrip_fails :
    make_ufixed_type 8 1 = .ok (.mk UFIXED [] (some 8) (some 1) none) ∧
    AbiType.string (.mk UFIXED [] (some 8) (some 1) none) = .ok "ufixed81".data ∧
    from_str "ufixed81".data = .panicked ∧
    from_str "ufixed8x1".data = .ok (.mk UFIXED [] (some 8) (some 1) none) ∧
    "ufixed81".data ≠ "ufixed8x1".data := by
  refine ⟨rfl, rfl, rfl, rfl, ?_⟩
  decide

/-- C2: the claim that the type parser is total (returns a value or a
descriptive error, never a panic) fails on the code: an input ending in
`]` with a non-digit array length, such as `bool[2]`, panics (the
static-array branch unwraps the captures of a date regex that cannot
match), and a `ufixed` input whose suffix does not match
`<digits>x<digits>`, such as `ufixedQ`, panics for the same reason. -/
theorem c2_parser_panics :
    from_str "bool[2]".data = .panicked ∧
    from_str "ufixedQ".data = .panicked := ⟨rfl, rfl⟩

/-- C3: the claimed static-array parse rule fails on the code:
`parse("uint64[3]")` does not succeed as a static array of length 3 of
`uint 64`; it panics, because the static-array branch matches the input
against the regex `^\d{4}-\d{2}-\d{2}$` (which can never match a string
ending in `]`) and unwraps the absent captures. -/
theorem c3_static_array_parse_panics :
    from_str "uint64[3]".data = .panicked := rfl

/-- C4: of the claimed ufixed parse behaviour, `parse("ufixed128x10")`
does succeed with bits 128 and precision 10, and `parse("ufixed8x161")`
does fail with a returned error (precision out of range); but
`parse("ufixed8x0")` panics instead of failing with an error, because the
suffix `8x0` does not match `([1-9][\d]*)x([1-9][\d]*)` and the source
unwraps the absent captures. -/
theorem c4_ufixed_parse_behaviour :
    from_str "ufixed128x10".data = .ok (.mk UFIXED [] (some 128) (some 10) none) ∧
    (from_str "ufixed8x161".data).isErr = true ∧
    from_str "ufixed8x0".data = .panicked := ⟨rfl, rfl, rfl⟩

/-- C5: the method-signature round trip.  For every signature string `s`
accepted by `Method::from_signature`, `get_signature()` on the resulting
method returns `s` exactly (it is built from the stored raw type strings);
in particular `from_signature("add(uint32,uint32)uint32")` yields name
`add`, two args of raw type `uint32` and return raw type `uint32`, and
`get_signature()` reproduces the original string. -/
theorem c5_method_signature_roundtrip :
    (∀ (s : Str) (m : AbiMethod), AbiMethod.from_signature s = .ok m →
      m.get_signature = s) ∧
    (AbiMethod.from_signature "add(uint32,uint32)uint32".data = .ok add_method_parsed ∧
      add_method_parsed.name = "add".data ∧
      (add_method_parsed.args.map fun a => a.type_) = ["uint32".data, "uint32".data] ∧
      add_method_parsed.returns.type_ = "uint32".data ∧
      add_method_parsed.get_signature = "add(uint32,uint32)uint32".data) := by
  constructor
  · intro s m h
    cases hpos : position_of (fun c => c = '(') s with
    | none =>
      simp only [AbiMethod.from_signature, hpos] at h
      exact absurd h (by simp)
    | some open_idx =>
      simp only [AbiMethod.from_signature, hpos] at h
      obtain ⟨hoplt, hopc⟩ := position_of_spec _ s open_idx hpos
      have hopen : s.getD open_idx ' ' = '(' := by simpa using hopc
      split at h
      · exact absurd h (by simp)
      · split at h
        · exact absurd h (by simp)
        · exact absurd h (by simp)
        · rename_i arg_types close_idx hpma
          obtain ⟨hinter, hoc, hcl, hcc⟩ := parse_method_args_ok hpma
          split at h
          · exact absurd h (by simp)
          · exact absurd h (by simp)
          · rename_i returns heq
            have hrett : returns.type_ = s.drop (close_idx + 1) := by
              split at heq
              · obtain rfl := RRes.ok.inj heq; rfl
              · split at heq
                · rename_i hgto
                  obtain rfl := RRes.ok.inj heq
                  rw [return_get_type_object_keeps_type hgto]
                · exact absurd heq (by simp)
                · exact absurd heq (by simp)
            split at h
            · exact absurd h (by simp)
            · exact absurd h (by simp)
            · rename_i args hargs
              obtain rfl := RRes.ok.inj h
              have hmap := process_args_loop_types _ _ hargs
              have hassemble := assemble_around s hoc hcl
              rw [hopen, hcc] at hassemble
              simp only [AbiMethod.get_signature, hmap, hinter, hrett]
              conv_rhs => rw [← hassemble]
              simp [List.append_assoc]
  · exact ⟨rfl, rfl, rfl, rfl, rfl⟩

/-- C5 witness: the round-trip theorem applied at the concrete signature
`add(uint32,uint32)uint32`. -/
theorem c5_method_signature_roundtrip_witness :
    AbiMethod.from_signature "add(uint32,uint32)uint32".data = .ok add_method_parsed ∧
    add_method_parsed.get_signature = "add(uint32,uint32)uint32".data :=
  ⟨rfl, c5_method_signature_roundtrip.1 "add(uint32,uint32)uint32".data
    add_method_parsed rfl⟩

/-- If the parentheses of the remaining text are unbalanced relative to the
current stack depth, the splitter's scan returns an error (whatever the
position counter and the segments recorded so far). -/
theorem scan_parens_err :
    ∀ (s : Str) (idx : Nat) (stack : List Nat) (acc : List Segment),
      bal_go s (stack.length : Int) = false →
      (scan_parens s idx stack acc).isErr = true := by
  intro s
  induction s with
  | nil =>
    intro idx stack acc h
    simp only [bal_go, beq_iff_eq] at h
    have hst : ¬stack.isEmpty = true := by
      simp only [List.isEmpty_iff]
      intro hnil
      subst hnil
      simp at h
    simp only [scan_parens, if_neg hst]
    rfl
  | cons c rest ih =>
    intro idx stack acc h
    simp only [bal_go] at h
    simp only [scan_parens]
    by_cases h1 : c = '('
    · rw [if_pos h1]
      rw [if_pos h1] at h
      apply ih
      have hlen : ((idx :: stack).length : Int) = (stack.length : Int) + 1 := by
        simp only [List.length_cons]; omega
      rw [hlen]
      exact h
    · rw [if_neg h1]
      rw [if_neg h1] at h
      by_cases h2 : c = ')'
      · rw [if_pos h2]
        rw [if_pos h2] at h
        cases stack with
        | nil => rfl
        | cons top stack' =>
          have hne : ¬(((top :: stack').length : Int) == 0) = true := by
            simp only [List.length_cons, beq_iff_eq]
            omega
          rw [if_neg hne] at h
          have hlen : ((top :: stack').length : Int) - 1 = (stack'.length : Int) := by
            simp only [List.length_cons]; omega
          rw [hlen] at h
          show (if stack'.isEmpty = true then
              scan_parens rest (idx + 1) stack' (acc ++ [⟨top, idx⟩])
            else scan_parens rest (idx + 1) stack' acc).isErr = true
          by_cases hemp : stack'.isEmpty
          · rw [if_pos hemp]; exact ih _ _ _ h
          · rw [if_neg hemp]; exact ih _ _ _ h
      · rw [if_neg h2]
        rw [if_neg h2] at h
        exact ih _ _ _ h

/-- The source's `str.contains(",,")` agrees with list-infix membership of
two consecutive commas. -/
theorem contains_consecutive_commas_iff :
    ∀ s : Str, contains_consecutive_commas s = true ↔ [',', ','] <:+: s := by
  intro s
  induction s with
  | nil =>
    simp [contains_consecutive_commas, List.infix_nil]
  | cons c rest ih =>
    rw [List.infix_cons_iff, ← ih]
    cases rest with
    | nil =>
      constructor
      · intro h; simp [contains_consecutive_commas] at h
      · rintro (hpre | hcont)
        · obtain ⟨t, ht⟩ := hpre; simp at ht
        · simp [contains_consecutive_commas] at hcont
    | cons c2 rest2 =>
      simp only [contains_consecutive_commas, Bool.or_eq_true, Bool.and_eq_true,
        decide_eq_true_eq, List.cons_prefix_cons, List.nil_prefix, and_true]
      rw [eq_comm (a := c) (b := ','), eq_comm (a := c2) (b := ',')]

/-- C7: the splitter, given the inner text of a parenthesized group,
returns the ordered top-level comma-separated segments with parenthesized
sub-groups kept intact: `uint32,(uint32,uint32),bool` yields exactly
`["uint32", "(uint32,uint32)", "bool"]`, and the empty input yields the
empty list (not a one-element list containing the empty string). -/
theorem c7_splitter_contract :
    parse_tuple_content "uint32,(uint32,uint32),bool".data =
      .ok ["uint32".data, "(uint32,uint32)".data, "bool".data] ∧
    parse_tuple_content ([] : Str) = .ok [] := ⟨rfl, rfl⟩

/-- C8: the splitter rejects every input with a leading comma, a trailing
comma, two consecutive commas (also when adjacent to a parenthesized
span), or unmatched parentheses (a `)` at depth 0, or a final depth other
than 0), returning an error. -/
theorem c8_splitter_rejections (s : Str)
    (h : s.head? = some ',' ∨ s.getLast? = some ',' ∨ [',', ','] <:+: s ∨
      bal_go s 0 = false) :
    (parse_tuple_content s).isErr = true := by
  unfold parse_tuple_content
  by_cases hnil : s.isEmpty
  · exfalso
    obtain rfl := List.isEmpty_iff.mp hnil
    rcases h with h | h | h | h
    · simp at h
    · simp at h
    · exact absurd (List.infix_nil.mp h) (by simp)
    · simp [bal_go] at h
  · rw [if_neg hnil]
    by_cases hcomma : s.getLast? = some ',' ∨ s.head? = some ','
    · rw [if_pos hcomma]; rfl
    · rw [if_neg hcomma]
      by_cases hcc : contains_consecutive_commas s
      · rw [if_pos hcc]; rfl
      · rw [if_neg hcc]
        have hbal : bal_go s 0 = false := by
          rcases h with h | h | h | h
          · exact absurd (Or.inr h) hcomma
          · exact absurd (Or.inl h) hcomma
          · exact absurd ((contains_consecutive_commas_iff s).mpr h) (by simpa using hcc)
          · exact h
        have herr := scan_parens_err s 0 [] [] (by simpa using hbal)
        rcases hscan : scan_parens s 0 [] [] with a | e | _
        · rw [hscan] at herr; simp [RRes.isErr] at herr
        · rfl
        · rw [hscan] at herr; simp [RRes.isErr] at herr

/-- C8 witness: the rejection theorem applied to the concrete input `,`
(a leading comma). -/
theorem c8_splitter_rejections_witness :
    (parse_tuple_content [',']).isErr = true :=
  c8_splitter_rejections [','] (Or.inl rfl)

/-- `TransactionArgType.is_valid_str` is membership in the keyword list. -/
theorem is_valid_str_iff_mem (t : Str) :
    TransactionArgType.is_valid_str t = true ↔ t ∈ tx_keywords := by
  unfold TransactionArgType.is_valid_str TransactionArgType.from_api_str
  split_ifs with h1 h2 h3 h4 h5 h6 h7 <;>
    simp_all [RRes.isOk, tx_keywords]

/-- Boolean form of `is_valid_str_iff_mem`. -/
theorem is_valid_str_eq_decide (t : Str) :
    TransactionArgType.is_valid_str t = decide (t ∈ tx_keywords) := by
  by_cases hm : t ∈ tx_keywords
  · simp [hm, (is_valid_str_iff_mem t).mpr hm]
  · rw [decide_eq_false hm]
    exact Bool.eq_false_iff.mpr fun hcon => hm ((is_valid_str_iff_mem t).mp hcon)

/-- C9: for every method, `get_tx_count()` equals 1 plus the number of
arguments whose raw type is one of the seven transaction-kind keywords
(reference-kind keywords and ordinary value types do not count); and
`from_signature("add()void")` yields 0 args with `get_tx_count() = 1`. -/
theorem c9_tx_count :
    (∀ m : AbiMethod, m.get_tx_count =
      1 + m.args.countP fun a => decide (a.type_ ∈ tx_keywords)) ∧
    (AbiMethod.from_signature "add()void".data =
      .ok { name := "add".data, description := none, args := [],
            returns := { type_ := "void".data, description := none, parsed := none } } ∧
      AbiMethod.get_tx_count
        { name := "add".data, description := none, args := [],
          returns := { type_ := "void".data, description := none, parsed := none } } = 1) := by
  refine ⟨?_, rfl, rfl⟩
  intro m
  unfold AbiMethod.get_tx_count
  rw [List.countP_eq_length_filter]
  congr 1
  exact congrArg List.length
    (List.filter_congr fun a _ => is_valid_str_eq_decide a.type_)

/-- Each `bytes_be k n` has length `k`. -/
theorem bytes_be_length : ∀ (k n : Nat), (bytes_be k n).length = k := by
  intro k
  induction k with
  | zero => intro n; rfl
  | succ k ih => intro n; simp [bytes_be, ih]

/-- A SHA-512/256 digest consists of 32 bytes. -/
theorem sha512_256_length (msg : List Nat) : (sha512_256 msg).length = 32 := by
  unfold sha512_256
  rcases hst : (to_blocks (to_words (sha_pad msg))).foldl sha_compress_block sha512_256_iv
    with ⟨a, b, c, d, e, f, g, h8⟩
  simp [bytes_be_length]

/-- C6: for every method, `get_selector()` returns exactly the first 4
bytes, in digest byte order, of the SHA-512/256 digest of the UTF-8 bytes
of `get_signature()`, with no additional byte swapping (the digest always
has 32 ≥ 4 bytes, so the source's slice and `expect` never panic). -/
theorem c6_selector_first_four_digest_bytes (m : AbiMethod) :
    m.get_selector = .ok ((sha512_256 (utf8_encode m.get_signature)).take 4) := by
  have hlen : 4 ≤ (sha512_256 (utf8_encode m.get_signature)).length := by
    rw [sha512_256_length]
    omega
  simp only [AbiMethod.get_selector, if_pos hlen]

/-- The pinned selector fixture of the source's `test_get_selector`:
`get_selector` of `add(uint32,uint32)uint32` is `0x3e1e52bd`, which
validates the SHA-512/256 embedding end to end against the repository's
regression fixture. -/
theorem add_method_selector_fixture :
    add_method.get_selector = .ok [0x3e, 0x1e, 0x52, 0xbd] := rfl

/-- C10: when a top-level parenthesized span is immediately adjacent to
non-empty text without a separating comma, the splitter succeeds and
silently omits the span: `parse_tuple_content("uint8(bool)")` returns
`Ok(["uint8"])`, and consequently `parse("(uint8(bool))")` succeeds as a
one-element tuple containing `uint 8`. -/
theorem c10_adjacent_paren_span_omitted :
    parse_tuple_content "uint8(bool)".data = .ok ["uint8".data] ∧
    from_str "(uint8(bool))".data =
      .ok (.mk TUPLE [.mk UINT [] (some 8) none none] none none (some 1)) :=
  ⟨rfl, rfl⟩

end Algonaut
